import Mathlib

/-!
# API analyzer: classification engine

A shallow embedding of `src/main.cpp` (class `APIAnalyzer`) and the properties of its
specification.

* A `std::string` is a `String`; every `Char` stands for one `char` of the source text.
* The SQLite table `api_signatures` is the list of its rows (`List APIInfo`), in insertion
  order. The statements the program issues are modelled on that list: `INSERT` appends a row,
  `SELECT * ... WHERE name = ?` filters the rows by exact name, `SELECT COUNT(*)` is the
  length, which `isTableEmpty` reads through `sqlite3_column_int` into a 32-bit `int`
  (`columnInt`). Storage faults (a database that cannot be opened, a statement that cannot
  be prepared or stepped) are outside the model: every statement runs.
* A `std::set<std::string>` is the list of its elements in iteration order, built by
  `setInsert`.
* `std::regex` is modelled by a backtracking matcher with greedy quantifiers, tried at every
  start position from left to right, as `std::regex_search` does for the ECMAScript grammar.
-/

namespace APIAnalyzer

/-! ## Data model -/

/-- The record `struct APIInfo` of `main.cpp`. -/
structure APIInfo where
  name : String
  category : String
  signature : String
  deriving DecidableEq, Repr

/-! ## Regular expression `(\w+)\s*\([^)]*\)` -/

/-- Character class `\w` in the "C" locale: letters, digits and the underscore. -/
def isWordChar (c : Char) : Bool :=
  (48 ≤ c.toNat && c.toNat ≤ 57) || (65 ≤ c.toNat && c.toNat ≤ 90) ||
    (97 ≤ c.toNat && c.toNat ≤ 122) || c.toNat == 95

/-- Character class `\s` in the "C" locale: space, `\t`, `\n`, `\v`, `\f`, `\r`. -/
def isSpaceChar (c : Char) : Bool :=
  c.toNat == 32 || (9 ≤ c.toNat && c.toNat ≤ 13)

/-- One character satisfying `test`, then the rest of the pattern `k`. -/
def matchChar {α : Type} (test : Char → Bool) (k : List Char → Option α) :
    List Char → Option α
  | [] => none
  | c :: cs => if test c then k cs else none

/-- Greedy `*` over a one-character atom: take one more character first, and fall back to
the rest of the pattern `k` at this position when that fails. -/
def matchStar {α : Type} (test : Char → Bool) (k : List Char → Option α) :
    List Char → Option α
  | [] => k []
  | c :: cs =>
    if test c then
      match matchStar test k cs with
      | some r => some r
      | none => k (c :: cs)
    else k (c :: cs)

/-- Greedy `+` over a one-character atom. -/
def matchPlus {α : Type} (test : Char → Bool) (k : List Char → Option α) :
    List Char → Option α :=
  matchChar test (matchStar test k)

/-- The pattern `(\w+)\s*\([^)]*\)` anchored at the start of `s`; the result is the text of
capture group 1, the characters of `s` consumed by `\w+`. -/
def functionPattern (s : List Char) : Option (List Char) :=
  matchPlus isWordChar
    (fun r1 =>
      matchStar isSpaceChar
        (matchChar (fun c => c == '(')
          (matchStar (fun c => c != ')')
            (matchChar (fun c => c == ')')
              (fun _ => some (s.take (s.length - r1.length)))))) r1) s

/-- The search `std::regex_search(line, matches, functionPattern)`: the match at the leftmost
start position that has one. -/
def regexSearch : List Char → Option (List Char)
  | [] => functionPattern []
  | c :: cs =>
    match functionPattern (c :: cs) with
    | some m => some m
    | none => regexSearch cs

/-- Method `APIAnalyzer::extractFunctionSignature`: capture group 1 of the first match, or the
empty string. -/
def extractFunctionSignature (line : String) : String :=
  match regexSearch line.data with
  | some m => String.mk m
  | none => ""

/-! ## Signature store -/

/-- Method `APIAnalyzer::addAPISignature`: the statement `INSERT INTO api_signatures ... VALUES
(?, ?, ?)` adds one row. -/
def addAPISignature (db : List APIInfo) (name category signature : String) : List APIInfo :=
  db ++ [{ name := name, category := category, signature := signature }]

/-- Method `APIAnalyzer::populateKnownAPIs`: the twenty built-in rows, inserted one after the
other. -/
def populateKnownAPIs (db : List APIInfo) : List APIInfo :=
  let db := addAPISignature db "CreateFile" "OS"
    "HANDLE (LPCTSTR, DWORD, DWORD, LPSECURITY_ATTRIBUTES, DWORD, DWORD, HANDLE)"
  let db := addAPISignature db "WriteFile" "OS"
    "BOOL (HANDLE, LPCVOID, DWORD, LPDWORD, LPOVERLAPPED)"
  let db := addAPISignature db "ReadFile" "OS"
    "BOOL (HANDLE, LPVOID, DWORD, LPDWORD, LPOVERLAPPED)"
  let db := addAPISignature db "CloseHandle" "OS" "BOOL (HANDLE)"
  let db := addAPISignature db "open" "OS" "int (const char*, int, ...)"
  let db := addAPISignature db "write" "OS" "ssize_t (int, const void*, size_t)"
  let db := addAPISignature db "read" "OS" "ssize_t (int, void*, size_t)"
  let db := addAPISignature db "close" "OS" "int (int)"
  let db := addAPISignature db "fork" "OS" "pid_t (void)"
  let db := addAPISignature db "exec" "OS" "int (const char*, char* const[])"
  let db := addAPISignature db "fopen" "Standard" "FILE* (const char*, const char*)"
  let db := addAPISignature db "fwrite" "Standard"
    "size_t (const void*, size_t, size_t, FILE*)"
  let db := addAPISignature db "fread" "Standard" "size_t (void*, size_t, size_t, FILE*)"
  let db := addAPISignature db "fclose" "Standard" "int (FILE*)"
  let db := addAPISignature db "printf" "Standard" "int (const char*, ...)"
  let db := addAPISignature db "scanf" "Standard" "int (const char*, ...)"
  let db := addAPISignature db "malloc" "Standard" "void* (size_t)"
  let db := addAPISignature db "free" "Standard" "void (void*)"
  let db := addAPISignature db "strlen" "Standard" "size_t (const char*)"
  let db := addAPISignature db "strcpy" "Standard" "char* (char*, const char*)"
  db

/-- The value `sqlite3_column_int` hands back for a 64-bit integer column holding `n`: its
low 32 bits, read as a signed `int`. -/
def columnInt (n : Nat) : Int :=
  if n % 2 ^ 32 < 2 ^ 31 then ((n % 2 ^ 32 : Nat) : Int) else ((n % 2 ^ 32 : Nat) : Int) - 2 ^ 32

/-- Method `APIAnalyzer::isTableEmpty`: `SELECT COUNT(*) FROM api_signatures` read into
`int count`, then `count == 0`. -/
def isTableEmpty (db : List APIInfo) : Bool :=
  let count : Int := columnInt db.length
  count == 0

/-- Method `APIAnalyzer::initializeDatabase` on a store that opens: the table is created when it
does not exist, and populated when `isTableEmpty` says so. -/
def initializeDatabase (db : List APIInfo) : List APIInfo :=
  if isTableEmpty db then populateKnownAPIs db else db

/-- Method `APIAnalyzer::queryAPI`: the rows selected by `SELECT * FROM api_signatures WHERE
name = ?`, in table order. -/
def queryAPI (db : List APIInfo) (name : String) : List APIInfo :=
  db.filter (fun r => r.name == name)

/-! ## Result sets -/

/-- Comparison `std::string::operator<` on the characters: the first differing character
decides, and a proper prefix is smaller. -/
def charsLess : List Char → List Char → Bool
  | [], [] => false
  | [], _ :: _ => true
  | _ :: _, [] => false
  | a :: as, b :: bs =>
    if a.toNat < b.toNat then true
    else if b.toNat < a.toNat then false
    else charsLess as bs

/-- Comparison `std::less<std::string>`, the ordering of the three result sets. -/
def stringLess (a b : String) : Bool :=
  charsLess a.data b.data

/-- Insertion `std::set<std::string>::insert` on the set's elements in iteration order: `x` is put
in front of the first element that is not smaller, unless that element is equivalent to
`x`. -/
def setInsert (x : String) : List String → List String
  | [] => [x]
  | y :: ys =>
    if stringLess x y then x :: y :: ys
    else if stringLess y x then y :: setInsert x ys
    else y :: ys

/-- The three sets `osAPIs`, `stdAPIs`, `ambiguousAPIs` of `analyzeFile`. -/
structure ClassificationResult where
  osAPIs : List String
  stdAPIs : List String
  ambiguousAPIs : List String
  deriving DecidableEq, Repr

/-! ## Classification loop and report -/

/-- One iteration of the `while (std::getline(file, line))` loop of `analyzeFile`: the
sets after the line, from the sets before it. -/
def classifyLine (db : List APIInfo) (r : ClassificationResult) (line : String) :
    ClassificationResult :=
  let signature := extractFunctionSignature line
  if signature = "" then r
  else
    let functionName := signature
    let apis := queryAPI db functionName
    if apis.isEmpty then r
    else if apis.length > 1 then
      { r with ambiguousAPIs := setInsert functionName r.ambiguousAPIs }
    else
      match apis.head? with
      | none => r
      | some api =>
        if api.category = "OS" then { r with osAPIs := setInsert functionName r.osAPIs }
        else { r with stdAPIs := setInsert functionName r.stdAPIs }

/-- The classification loop of `analyzeFile` over the lines of the file, starting from
three empty sets. -/
def classifyLines (db : List APIInfo) (lines : List String) : ClassificationResult :=
  lines.foldl (classifyLine db) { osAPIs := [], stdAPIs := [], ambiguousAPIs := [] }

/-- The table loop of `analyzeFile` once `osIter` has reached the end: every iteration
writes a tab, the next standard name and a newline. -/
def tableRowsStd : List String → List String
  | [] => []
  | s :: ss => ("" ++ "\t" ++ s ++ "\n") :: tableRowsStd ss

/-- The table loop `while (osIter != osAPIs.end() || stdIter != stdAPIs.end())` of
`analyzeFile`: the text written by each iteration. -/
def tableRows : List String → List String → List String
  | [], std => tableRowsStd std
  | o :: os, [] => (o ++ "\t" ++ "" ++ "\n") :: tableRows os []
  | o :: os, s :: ss => (o ++ "\t" ++ s ++ "\n") :: tableRows os ss

/-- The text written for the ambiguous names: nothing for an empty set, else the heading
and one line per name. -/
def ambiguousSection (ambiguousAPIs : List String) : String :=
  if ambiguousAPIs.isEmpty then ""
  else "\nAmbiguous APIs requiring manual inspection:\n" ++
    String.join (ambiguousAPIs.map (fun api => api ++ "\n"))

/-- The content of `api_analysis_results.txt` written by `analyzeFile`. -/
def renderReport (r : ClassificationResult) : String :=
  "OS APIs\tStandard Libraries\n" ++ String.join (tableRows r.osAPIs r.stdAPIs) ++
    ambiguousSection r.ambiguousAPIs

/-- Method `APIAnalyzer::analyzeFile` on the lines of a readable file: the report text. -/
def analyzeFile (db : List APIInfo) (lines : List String) : String :=
  renderReport (classifyLines db lines)

/-! ## Notions used by the statements -/

/-- The rest of a line after a name has the form the pattern asks for: optional white
space, an opening parenthesis, and a closing parenthesis somewhere after it. -/
def callFollows (r : List Char) : Bool :=
  match r.dropWhile isSpaceChar with
  | [] => false
  | c :: r3 => c == '(' && decide (')' ∈ r3)

/-- The elements are in strictly ascending order of `std::less<std::string>`: the state of
a `std::set<std::string>` read through its iterators. -/
def Ascending (s : List String) : Prop :=
  s.Pairwise (fun a b => stringLess a b = true)

/-- The name `n` is the candidate extracted from at least one of the lines; the empty
string is what `extractFunctionSignature` returns for a line without candidate. -/
def IsCandidate (lines : List String) (n : String) : Prop :=
  n ≠ "" ∧ ∃ line ∈ lines, extractFunctionSignature line = n

/-- The store of the specification's worked example: one OS record, one Standard record,
and two records for the name "close". -/
def exampleStore : List APIInfo :=
  [{ name := "open", category := "OS", signature := "int(...)" },
   { name := "fopen", category := "Standard", signature := "FILE*(...)" },
   { name := "close", category := "OS", signature := "int(HANDLE)" },
   { name := "close", category := "Standard", signature := "int(int)" }]

/-- The input lines of the specification's worked example. -/
def exampleLines : List String :=
  ["open(f);", "fopen(f);", "close(f);", "foo(x);"]

/-- The lines of the sample input `src/test2.cpp`. -/
def test2Lines : List String :=
  ["#include <stdio.h>",
   "#include <windows.h>",
   "",
   "void close() \x7b",
   "    // User-defined close",
   "\x7d",
   "",
   "int main() \x7b",
   "    close();              // User-defined function",
   "    MessageBox(NULL, \"Hello\", \"Title\", MB_OK); // OS-specific",
   "    printf(\"Hello, World!\"); // Standard library",
   "    return 0;",
   "\x7d"]

/-- Line 19 of the sample input `src/test.cpp`. -/
def test19Line : String :=
  "        if (!buffer) \x7b"

/-! ## The regular expression -/

theorem matchStar_dropWhile {α : Type} (test : Char → Bool) (k : List Char → Option α)
    (hk : ∀ c cs, test c = true → k (c :: cs) = none) (s : List Char) :
    matchStar test k s = k (s.dropWhile test) := by
  induction s with
  | nil => rfl
  | cons c cs ih =>
    by_cases hc : test c = true
    · simp only [matchStar, hc, if_true, List.dropWhile_cons, ih]
      cases hres : k (List.dropWhile test cs) with
      | none => simp [hk c cs hc]
      | some r => rfl
    · simp [matchStar, hc, List.dropWhile_cons]

theorem matchStar_closing {α : Type} (v : α) (s : List Char) :
    matchStar (fun c => c != ')') (matchChar (fun c => c == ')') (fun _ => some v)) s =
      if ')' ∈ s then some v else none := by
  induction s with
  | nil => simp [matchStar, matchChar]
  | cons c cs ih =>
    by_cases hc : c = ')'
    · subst hc
      simp [matchStar, matchChar]
    · have hne : ¬ (')' = c) := fun h => hc h.symm
      simp [matchStar, matchChar, hc, hne, ih]
      split <;> simp_all

theorem isWordChar_not_space {c : Char} (h : isWordChar c = true) : isSpaceChar c = false := by
  simp only [isWordChar, isSpaceChar, Bool.or_eq_true, Bool.and_eq_true, decide_eq_true_eq,
    beq_iff_eq] at h
  simp only [isSpaceChar, Bool.or_eq_false_iff, Bool.and_eq_false_iff, beq_eq_false_iff_ne,
    decide_eq_false_iff_not]
  omega

theorem isWordChar_ne_open {c : Char} (h : isWordChar c = true) : c ≠ '(' := by
  rintro rfl
  revert h
  decide

theorem isSpaceChar_ne_open {c : Char} (h : isSpaceChar c = true) : c ≠ '(' := by
  rintro rfl
  revert h
  decide

theorem take_length_sub_dropWhile (p : Char → Bool) (l : List Char) :
    l.take (l.length - (l.dropWhile p).length) = l.takeWhile p := by
  have h := List.takeWhile_append_dropWhile p l
  have hlen : l.length - (l.dropWhile p).length = (l.takeWhile p).length := by
    have := congrArg List.length h
    simp only [List.length_append] at this
    omega
  rw [hlen]
  have h2 : List.take (l.takeWhile p).length (l.takeWhile p ++ l.dropWhile p) =
      l.takeWhile p := List.take_left' rfl
  rwa [h] at h2

/-- The tail of the pattern after the captured name, `\s*\([^)]*\)`, succeeds exactly when
`callFollows` holds. -/
theorem matchTail_eq {α : Type} (v : α) (r : List Char) :
    matchStar isSpaceChar
        (matchChar (fun c => c == '(')
          (matchStar (fun c => c != ')') (matchChar (fun c => c == ')') (fun _ => some v)))) r =
      if callFollows r then some v else none := by
  rw [matchStar_dropWhile]
  · unfold callFollows
    cases h : List.dropWhile isSpaceChar r with
    | nil => simp [matchChar]
    | cons c r3 =>
      by_cases hc : c = '('
      · subst hc
        simp [matchChar, matchStar_closing]
      · simp [matchChar, hc]
  · intro c cs hc
    simp [matchChar, isSpaceChar_ne_open hc]

theorem callFollows_word_cons {c : Char} (cs : List Char) (h : isWordChar c = true) :
    callFollows (c :: cs) = false := by
  simp [callFollows, List.dropWhile_cons, isWordChar_not_space h, isWordChar_ne_open h]

theorem functionPattern_eq (s : List Char) :
    functionPattern s =
      if s.takeWhile isWordChar ≠ [] ∧ callFollows (s.dropWhile isWordChar) = true then
        some (s.takeWhile isWordChar)
      else none := by
  cases s with
  | nil => simp [functionPattern, matchPlus, matchChar]
  | cons c cs =>
    by_cases hc : isWordChar c = true
    · simp only [functionPattern, matchPlus, matchChar, hc, if_true]
      rw [matchStar_dropWhile]
      · rw [matchTail_eq]
        have htake := take_length_sub_dropWhile isWordChar (c :: cs)
        simp only [List.dropWhile_cons, List.takeWhile_cons, hc, if_true] at htake
        rw [List.length_cons] at htake
        simp only [List.dropWhile_cons, List.takeWhile_cons, hc, if_true, List.length_cons,
          htake]
        simp
      · intro c' cs' hc'
        rw [matchTail_eq, callFollows_word_cons cs' hc']
        simp
    · simp [functionPattern, matchPlus, matchChar, hc, List.takeWhile_cons]


theorem takeWhile_append_stop (p : Char → Bool) (n : List Char) (x : Char) (r : List Char)
    (hn : ∀ c ∈ n, p c = true) (hx : p x = false) :
    (n ++ x :: r).takeWhile p = n ∧ (n ++ x :: r).dropWhile p = x :: r := by
  induction n with
  | nil => simp [List.takeWhile_cons, List.dropWhile_cons, hx]
  | cons c cs ih =>
    have hc : p c = true := hn c (List.mem_cons_self _ _)
    have ih2 := ih (fun d hd => hn d (List.mem_cons_of_mem _ hd))
    simp [List.takeWhile_cons, List.dropWhile_cons, hc, ih2.1, ih2.2]

theorem callFollows_head {r : List Char} (h : callFollows r = true) :
    ∃ x t, r = x :: t ∧ isWordChar x = false := by
  cases r with
  | nil => simp [callFollows] at h
  | cons x t =>
    refine ⟨x, t, rfl, ?_⟩
    cases hx : isWordChar x with
    | false => rfl
    | true => rw [callFollows_word_cons t hx] at h; cases h

theorem mem_split_first {x : Char} {l : List Char} (h : x ∈ l) :
    ∃ a b, l = a ++ x :: b ∧ x ∉ a := by
  induction l with
  | nil => cases h
  | cons y ys ih =>
    by_cases hy : x = y
    · exact ⟨[], ys, by simp [hy], by simp⟩
    · have hmem : x ∈ ys := by
        rcases List.mem_cons.mp h with h1 | h1
        · exact absurd h1 hy
        · exact h1
      obtain ⟨a, b, hab, hna⟩ := ih hmem
      refine ⟨y :: a, b, by simp [hab], ?_⟩
      simp only [List.mem_cons, not_or]
      exact ⟨hy, hna⟩

theorem callFollows_split {r : List Char} (h : callFollows r = true) :
    ∃ ws args post, r = ws ++ '(' :: (args ++ ')' :: post) ∧
      (∀ c ∈ ws, isSpaceChar c = true) ∧ ')' ∉ args := by
  unfold callFollows at h
  have hsplit := List.takeWhile_append_dropWhile isSpaceChar r
  cases hd : List.dropWhile isSpaceChar r with
  | nil => rw [hd] at h; cases h
  | cons c r3 =>
    rw [hd] at h hsplit
    simp only [Bool.and_eq_true, beq_iff_eq, decide_eq_true_eq] at h
    obtain ⟨hc, hmem⟩ := h
    subst hc
    obtain ⟨args, post, hr3, hargs⟩ := mem_split_first hmem
    refine ⟨List.takeWhile isSpaceChar r, args, post, ?_, ?_, hargs⟩
    · rw [← hr3]; exact hsplit.symm
    · intro c hc
      exact List.mem_takeWhile_imp hc

theorem callFollows_of_split (ws args post : List Char)
    (hws : ∀ c ∈ ws, isSpaceChar c = true) :
    callFollows (ws ++ '(' :: (args ++ ')' :: post)) = true := by
  have h := (takeWhile_append_stop isSpaceChar ws '(' (args ++ ')' :: post) hws (by decide)).2
  simp [callFollows, h]

/-- What a successful search returns: a maximal run of word characters, not preceded by a
word character, followed by `callFollows`. -/
theorem regexSearch_some {line m : List Char} (h : regexSearch line = some m) :
    ∃ pre rest, line = pre ++ (m ++ rest) ∧ m ≠ [] ∧ (∀ c ∈ m, isWordChar c = true) ∧
      callFollows rest = true ∧ (∀ c, pre.getLast? = some c → isWordChar c = false) := by
  induction line with
  | nil => simp [regexSearch, functionPattern_eq] at h
  | cons c cs ih =>
    unfold regexSearch at h
    cases hf : functionPattern (c :: cs) with
    | some m' =>
      rw [hf] at h
      simp only [Option.some.injEq] at h
      subst h
      rw [functionPattern_eq] at hf
      split at hf
      · rename_i hcond
        simp only [Option.some.injEq] at hf
        refine ⟨[], List.dropWhile isWordChar (c :: cs), ?_, ?_, ?_, ?_, ?_⟩
        · rw [← hf]; simp [List.takeWhile_append_dropWhile]
        · rw [← hf]; exact hcond.1
        · intro d hd
          rw [← hf] at hd
          exact List.mem_takeWhile_imp hd
        · exact hcond.2
        · intro d hd; simp at hd
      · cases hf
    | none =>
      rw [hf] at h
      obtain ⟨pre, rest, hline, hne, hword, hcall, hpre⟩ := ih h
      refine ⟨c :: pre, rest, by simp [hline], hne, hword, hcall, ?_⟩
      intro d hd
      cases pre with
      | cons p ps =>
        rw [List.getLast?_cons_cons] at hd
        exact hpre d hd
      | nil =>
        simp only [List.getLast?_singleton, Option.some.injEq] at hd
        subst hd
        cases hc : isWordChar c with
        | false => rfl
        | true =>
          exfalso
          obtain ⟨x, t, hrest, hx⟩ := callFollows_head hcall
          have hcs : c :: cs = (c :: m) ++ x :: t := by simp [hline, hrest]
          have hstop := takeWhile_append_stop isWordChar (c :: m) x t
            (by
              intro e he
              rcases List.mem_cons.mp he with h1 | h1
              · rw [h1]; exact hc
              · exact hword e h1) hx
          rw [functionPattern_eq, hcs, hstop.1, hstop.2, ← hrest] at hf
          simp [hcall] at hf

/-- A line that starts with a name, optional white space and a parenthesised text is matched
at its first character. -/
theorem regexSearch_of_leading_name (n rest : List Char) (hne : n ≠ [])
    (hword : ∀ c ∈ n, isWordChar c = true) (hcall : callFollows rest = true) :
    regexSearch (n ++ rest) = some n := by
  obtain ⟨x, t, hrest, hx⟩ := callFollows_head hcall
  have hstop := takeWhile_append_stop isWordChar n x t hword hx
  have hf : functionPattern (n ++ rest) = some n := by
    rw [functionPattern_eq, hrest, hstop.1, hstop.2, ← hrest]
    simp [hne, hcall]
  cases hl : n ++ rest with
  | nil =>
    rw [hl] at hf
    simp [functionPattern_eq] at hf
  | cons c cs =>
    rw [hl] at hf
    simp [regexSearch, hf]

theorem regexSearch_none_of_no_paren {line : List Char}
    (h : '(' ∉ line ∨ ')' ∉ line.dropWhile (fun c => c != '(')) : regexSearch line = none := by
  cases hs : regexSearch line with
  | none => rfl
  | some m =>
    exfalso
    obtain ⟨pre, rest, hline, -, -, hcall, -⟩ := regexSearch_some hs
    obtain ⟨ws, args, post, hrest, -, -⟩ := callFollows_split hcall
    have hopen : '(' ∈ line := by rw [hline, hrest]; simp
    have hkey : ∀ (p q : List Char), ')' ∈ q →
        ')' ∈ (p ++ '(' :: q).dropWhile (fun c => c != '(') := by
      intro p q hq
      induction p with
      | nil => simp [List.dropWhile_cons, hq]
      | cons y ys ihp =>
        by_cases hy : y = '('
        · subst hy
          simp [List.dropWhile_cons, hq]
        · simpa [List.dropWhile_cons, hy] using ihp
    have hclose : ')' ∈ line.dropWhile (fun c => c != '(') := by
      have := hkey (pre ++ (m ++ ws)) (args ++ ')' :: post) (by simp)
      rw [hline, hrest]
      simpa [List.append_assoc] using this
    rcases h with h | h
    · exact h hopen
    · exact h hclose


/-! ### Order of the result sets -/

theorem char_eq_of_toNat_eq {a b : Char} (h : a.toNat = b.toNat) : a = b := by
  rw [← Char.ofNat_toNat a, ← Char.ofNat_toNat b, h]

theorem charsLess_irrefl (a : List Char) : charsLess a a = false := by
  induction a with
  | nil => rfl
  | cons c cs ih => simp [charsLess, ih]

theorem charsLess_asymm {a b : List Char} (h : charsLess a b = true) :
    charsLess b a = false := by
  induction a generalizing b with
  | nil => cases b <;> simp_all [charsLess]
  | cons c cs ih =>
    cases b with
    | nil => simp [charsLess] at h
    | cons d ds =>
      simp only [charsLess] at h ⊢
      by_cases h1 : c.toNat < d.toNat
      · have h2 : ¬ d.toNat < c.toNat := by omega
        simp [h1, h2]
      · by_cases h2 : d.toNat < c.toNat
        · simp [h1, h2] at h
        · simp only [h1, h2, if_false] at h ⊢
          exact ih h

theorem charsLess_trans {a b c : List Char} (h1 : charsLess a b = true)
    (h2 : charsLess b c = true) : charsLess a c = true := by
  induction a generalizing b c with
  | nil =>
    cases b with
    | nil => simp [charsLess] at h1
    | cons y ys =>
      cases c with
      | nil => simp [charsLess] at h2
      | cons z zs => simp [charsLess]
  | cons x xs ih =>
    cases b with
    | nil => simp [charsLess] at h1
    | cons y ys =>
      cases c with
      | nil => simp [charsLess] at h2
      | cons z zs =>
        simp only [charsLess] at h1 h2 ⊢
        by_cases hxy : x.toNat < y.toNat
        · by_cases hyz : y.toNat < z.toNat
          · have : x.toNat < z.toNat := by omega
            simp [this]
          · by_cases hzy : z.toNat < y.toNat
            · simp [hyz, hzy] at h2
            · have : x.toNat < z.toNat := by omega
              simp [this]
        · by_cases hyx : y.toNat < x.toNat
          · simp [hxy, hyx] at h1
          · simp only [hxy, hyx, if_false] at h1
            by_cases hyz : y.toNat < z.toNat
            · have : x.toNat < z.toNat := by omega
              simp [this]
            · by_cases hzy : z.toNat < y.toNat
              · simp [hyz, hzy] at h2
              · simp only [hyz, hzy, if_false] at h2
                have e1 : ¬ x.toNat < z.toNat := by omega
                have e2 : ¬ z.toNat < x.toNat := by omega
                simp only [e1, e2, if_false]
                exact ih h1 h2

theorem charsLess_total {a b : List Char} (h1 : charsLess a b = false)
    (h2 : charsLess b a = false) : a = b := by
  induction a generalizing b with
  | nil =>
    cases b with
    | nil => rfl
    | cons y ys => simp [charsLess] at h1
  | cons x xs ih =>
    cases b with
    | nil => simp [charsLess] at h2
    | cons y ys =>
      simp only [charsLess] at h1 h2
      by_cases hxy : x.toNat < y.toNat
      · simp [hxy] at h1
      · by_cases hyx : y.toNat < x.toNat
        · simp [hyx] at h2
        · simp only [hxy, hyx, if_false] at h1 h2
          have hc : x = y := char_eq_of_toNat_eq (by omega)
          rw [hc, ih h1 h2]

theorem stringLess_irrefl (a : String) : stringLess a a = false :=
  charsLess_irrefl a.data

theorem stringLess_asymm {a b : String} (h : stringLess a b = true) :
    stringLess b a = false :=
  charsLess_asymm h

theorem stringLess_trans {a b c : String} (h1 : stringLess a b = true)
    (h2 : stringLess b c = true) : stringLess a c = true :=
  charsLess_trans h1 h2

theorem stringLess_total {a b : String} (h1 : stringLess a b = false)
    (h2 : stringLess b a = false) : a = b :=
  String.ext (charsLess_total h1 h2)

theorem mem_setInsert {x y : String} {s : List String} :
    y ∈ setInsert x s ↔ y = x ∨ y ∈ s := by
  induction s with
  | nil => simp [setInsert]
  | cons z zs ih =>
    unfold setInsert
    by_cases h1 : stringLess x z = true
    · simp [h1]
    · by_cases h2 : stringLess z x = true
      · rw [if_neg h1, if_pos h2]
        simp only [List.mem_cons, ih]
        tauto
      · have hxz : x = z := stringLess_total (by simpa using h1) (by simpa using h2)
        subst hxz
        rw [if_neg h1, if_neg h1]
        simp only [List.mem_cons]
        tauto

theorem ascending_setInsert {x : String} {s : List String} (hs : Ascending s) :
    Ascending (setInsert x s) := by
  induction s with
  | nil => simp [setInsert, Ascending]
  | cons z zs ih =>
    unfold Ascending at hs ih ⊢
    rw [List.pairwise_cons] at hs
    unfold setInsert
    by_cases h1 : stringLess x z = true
    · rw [if_pos h1]
      rw [List.pairwise_cons]
      refine ⟨?_, List.pairwise_cons.mpr hs⟩
      intro w hw
      rcases List.mem_cons.mp hw with hw | hw
      · rw [hw]; exact h1
      · exact stringLess_trans h1 (hs.1 w hw)
    · by_cases h2 : stringLess z x = true
      · rw [if_neg h1, if_pos h2]
        rw [List.pairwise_cons]
        refine ⟨?_, ih hs.2⟩
        intro w hw
        rcases mem_setInsert.mp hw with hw | hw
        · rw [hw]; exact h2
        · exact hs.1 w hw
      · rw [if_neg h1, if_neg h2]
        exact List.pairwise_cons.mpr hs

theorem ascending_nodup {s : List String} (hs : Ascending s) : s.Nodup := by
  unfold Ascending at hs
  refine List.Pairwise.imp ?_ hs
  intro a b hab heq
  rw [heq, stringLess_irrefl] at hab
  cases hab

/-- A set is determined by its elements: two ascending lists with the same members are the
same list. -/
theorem ascending_ext {s t : List String} (hs : Ascending s) (ht : Ascending t)
    (h : ∀ x, x ∈ s ↔ x ∈ t) : s = t := by
  induction s generalizing t with
  | nil =>
    cases t with
    | nil => rfl
    | cons b bs => exact absurd ((h b).mpr (List.mem_cons_self _ _)) (List.not_mem_nil _)
  | cons a as ih =>
    cases t with
    | nil => exact absurd ((h a).mp (List.mem_cons_self _ _)) (List.not_mem_nil _)
    | cons b bs =>
      unfold Ascending at hs ht ih
      rw [List.pairwise_cons] at hs ht
      have hab : a = b := by
        rcases List.mem_cons.mp ((h a).mp (List.mem_cons_self _ _)) with h1 | h1
        · exact h1
        · rcases List.mem_cons.mp ((h b).mpr (List.mem_cons_self _ _)) with h2 | h2
          · exact h2.symm
          · have e1 := ht.1 a h1
            have e2 := hs.1 b h2
            rw [stringLess_asymm e1] at e2
            cases e2
      subst hab
      have htail : ∀ x, x ∈ as ↔ x ∈ bs := by
        intro x
        constructor
        · intro hx
          rcases List.mem_cons.mp ((h x).mp (List.mem_cons_of_mem _ hx)) with h1 | h1
          · have := hs.1 x hx
            rw [h1, stringLess_irrefl] at this
            cases this
          · exact h1
        · intro hx
          rcases List.mem_cons.mp ((h x).mpr (List.mem_cons_of_mem _ hx)) with h1 | h1
          · have := ht.1 x hx
            rw [h1, stringLess_irrefl] at this
            cases this
          · exact h1
      rw [ih hs.2 ht.2 htail]

/-! ## The classification loop -/

theorem classifyLine_cases (db : List APIInfo) (r : ClassificationResult) (line : String) :
    (classifyLine db r line = r ∧
        (extractFunctionSignature line = "" ∨
          queryAPI db (extractFunctionSignature line) = [])) ∨
      (classifyLine db r line =
          { r with ambiguousAPIs := setInsert (extractFunctionSignature line) r.ambiguousAPIs } ∧
        extractFunctionSignature line ≠ "" ∧
          2 ≤ (queryAPI db (extractFunctionSignature line)).length) ∨
      (classifyLine db r line =
          { r with osAPIs := setInsert (extractFunctionSignature line) r.osAPIs } ∧
        extractFunctionSignature line ≠ "" ∧
          ∃ api, queryAPI db (extractFunctionSignature line) = [api] ∧ api.category = "OS") ∨
      (classifyLine db r line =
          { r with stdAPIs := setInsert (extractFunctionSignature line) r.stdAPIs } ∧
        extractFunctionSignature line ≠ "" ∧
          ∃ api, queryAPI db (extractFunctionSignature line) = [api] ∧ api.category ≠ "OS") := by
  unfold classifyLine
  by_cases hsig : extractFunctionSignature line = ""
  · left
    simp [hsig]
  · simp only [hsig, if_false]
    cases hq : queryAPI db (extractFunctionSignature line) with
    | nil => left; simp
    | cons a as =>
      cases as with
      | cons b bs => right; left; simp [hsig]
      | nil =>
        by_cases hcat : a.category = "OS"
        · right; right; left; simp [hcat, hsig]
        · right; right; right; simp [hcat, hsig]

theorem mem_osAPIs_classifyLine (db : List APIInfo) (r : ClassificationResult)
    (line n : String) :
    n ∈ (classifyLine db r line).osAPIs ↔
      n ∈ r.osAPIs ∨ (extractFunctionSignature line = n ∧ n ≠ "" ∧
        ∃ api, queryAPI db n = [api] ∧ api.category = "OS") := by
  rcases classifyLine_cases db r line with ⟨h, h2⟩ | ⟨h, h1, h2⟩ | ⟨h, h1, api, h2, h3⟩ |
    ⟨h, h1, api, h2, h3⟩
  · rw [h]
    constructor
    · exact Or.inl
    · rintro (hm | ⟨he, hne, api, hq, -⟩)
      · exact hm
      · subst he
        rcases h2 with h2 | h2
        · exact absurd h2 hne
        · rw [h2] at hq; cases hq
  · rw [h]
    constructor
    · exact Or.inl
    · rintro (hm | ⟨he, hne, api, hq, -⟩)
      · exact hm
      · subst he
        rw [hq] at h2
        simp at h2
  · rw [h]
    simp only [mem_setInsert]
    constructor
    · rintro (hm | hm)
      · right
        subst hm
        exact ⟨rfl, h1, api, h2, h3⟩
      · exact Or.inl hm
    · rintro (hm | ⟨he, -⟩)
      · exact Or.inr hm
      · exact Or.inl he.symm
  · rw [h]
    constructor
    · exact Or.inl
    · rintro (hm | ⟨he, hne, api2, hq, hcat⟩)
      · exact hm
      · subst he
        rw [hq] at h2
        simp only [List.cons.injEq, and_true] at h2
        subst h2
        exact absurd hcat h3

theorem mem_stdAPIs_classifyLine (db : List APIInfo) (r : ClassificationResult)
    (line n : String) :
    n ∈ (classifyLine db r line).stdAPIs ↔
      n ∈ r.stdAPIs ∨ (extractFunctionSignature line = n ∧ n ≠ "" ∧
        ∃ api, queryAPI db n = [api] ∧ api.category ≠ "OS") := by
  rcases classifyLine_cases db r line with ⟨h, h2⟩ | ⟨h, h1, h2⟩ | ⟨h, h1, api, h2, h3⟩ |
    ⟨h, h1, api, h2, h3⟩
  · rw [h]
    constructor
    · exact Or.inl
    · rintro (hm | ⟨he, hne, api, hq, -⟩)
      · exact hm
      · subst he
        rcases h2 with h2 | h2
        · exact absurd h2 hne
        · rw [h2] at hq; cases hq
  · rw [h]
    constructor
    · exact Or.inl
    · rintro (hm | ⟨he, hne, api, hq, -⟩)
      · exact hm
      · subst he
        rw [hq] at h2
        simp at h2
  · rw [h]
    constructor
    · exact Or.inl
    · rintro (hm | ⟨he, hne, api2, hq, hcat⟩)
      · exact hm
      · subst he
        rw [hq] at h2
        simp only [List.cons.injEq, and_true] at h2
        subst h2
        exact absurd h3 hcat
  · rw [h]
    simp only [mem_setInsert]
    constructor
    · rintro (hm | hm)
      · right
        subst hm
        exact ⟨rfl, h1, api, h2, h3⟩
      · exact Or.inl hm
    · rintro (hm | ⟨he, -⟩)
      · exact Or.inr hm
      · exact Or.inl he.symm

theorem mem_ambiguousAPIs_classifyLine (db : List APIInfo) (r : ClassificationResult)
    (line n : String) :
    n ∈ (classifyLine db r line).ambiguousAPIs ↔
      n ∈ r.ambiguousAPIs ∨ (extractFunctionSignature line = n ∧ n ≠ "" ∧
        2 ≤ (queryAPI db n).length) := by
  rcases classifyLine_cases db r line with ⟨h, h2⟩ | ⟨h, h1, h2⟩ | ⟨h, h1, api, h2, h3⟩ |
    ⟨h, h1, api, h2, h3⟩
  · rw [h]
    constructor
    · exact Or.inl
    · rintro (hm | ⟨he, hne, hlen⟩)
      · exact hm
      · subst he
        rcases h2 with h2 | h2
        · exact absurd h2 hne
        · rw [h2] at hlen; simp at hlen
  · rw [h]
    simp only [mem_setInsert]
    constructor
    · rintro (hm | hm)
      · right
        subst hm
        exact ⟨rfl, h1, h2⟩
      · exact Or.inl hm
    · rintro (hm | ⟨he, -⟩)
      · exact Or.inr hm
      · exact Or.inl he.symm
  · rw [h]
    constructor
    · exact Or.inl
    · rintro (hm | ⟨he, hne, hlen⟩)
      · exact hm
      · subst he
        rw [h2] at hlen; simp at hlen
  · rw [h]
    constructor
    · exact Or.inl
    · rintro (hm | ⟨he, hne, hlen⟩)
      · exact hm
      · subst he
        rw [h2] at hlen; simp at hlen

theorem ascending_classifyLine (db : List APIInfo) (r : ClassificationResult) (line : String)
    (h : Ascending r.osAPIs ∧ Ascending r.stdAPIs ∧ Ascending r.ambiguousAPIs) :
    Ascending (classifyLine db r line).osAPIs ∧ Ascending (classifyLine db r line).stdAPIs ∧
      Ascending (classifyLine db r line).ambiguousAPIs := by
  rcases classifyLine_cases db r line with ⟨e, -⟩ | ⟨e, -⟩ | ⟨e, -⟩ | ⟨e, -⟩
  · rw [e]; exact h
  · rw [e]; exact ⟨h.1, h.2.1, ascending_setInsert h.2.2⟩
  · rw [e]; exact ⟨ascending_setInsert h.1, h.2.1, h.2.2⟩
  · rw [e]; exact ⟨h.1, ascending_setInsert h.2.1, h.2.2⟩

theorem mem_foldl_classifyLine (db : List APIInfo) (f : ClassificationResult → List String)
    (P : String → Prop)
    (hstep : ∀ r line n, n ∈ f (classifyLine db r line) ↔
      n ∈ f r ∨ (extractFunctionSignature line = n ∧ n ≠ "" ∧ P n))
    (lines : List String) (r : ClassificationResult) (n : String) :
    n ∈ f (lines.foldl (classifyLine db) r) ↔ n ∈ f r ∨ (IsCandidate lines n ∧ P n) := by
  induction lines generalizing r with
  | nil => simp [IsCandidate]
  | cons l ls ih =>
    rw [List.foldl_cons, ih, hstep]
    unfold IsCandidate
    constructor
    · rintro ((h | ⟨he, hne, hp⟩) | ⟨⟨hne, l2, hl2, he⟩, hp⟩)
      · exact Or.inl h
      · exact Or.inr ⟨⟨hne, l, List.mem_cons_self _ _, he⟩, hp⟩
      · exact Or.inr ⟨⟨hne, l2, List.mem_cons_of_mem _ hl2, he⟩, hp⟩
    · rintro (h | ⟨⟨hne, l2, hl2, he⟩, hp⟩)
      · exact Or.inl (Or.inl h)
      · rcases List.mem_cons.mp hl2 with h1 | h1
        · subst h1
          exact Or.inl (Or.inr ⟨he, hne, hp⟩)
        · exact Or.inr ⟨⟨hne, l2, h1, he⟩, hp⟩

/-- The names of `osAPIs` after the loop: the candidates with exactly one record, of
category "OS". -/
theorem mem_osAPIs (db : List APIInfo) (lines : List String) (n : String) :
    n ∈ (classifyLines db lines).osAPIs ↔
      IsCandidate lines n ∧ ∃ api, queryAPI db n = [api] ∧ api.category = "OS" := by
  unfold classifyLines
  rw [mem_foldl_classifyLine db (fun r => r.osAPIs)
    (fun n => ∃ api, queryAPI db n = [api] ∧ api.category = "OS")
    (mem_osAPIs_classifyLine db)]
  simp

/-- The names of `stdAPIs` after the loop: the candidates with exactly one record, of a
category other than "OS". -/
theorem mem_stdAPIs (db : List APIInfo) (lines : List String) (n : String) :
    n ∈ (classifyLines db lines).stdAPIs ↔
      IsCandidate lines n ∧ ∃ api, queryAPI db n = [api] ∧ api.category ≠ "OS" := by
  unfold classifyLines
  rw [mem_foldl_classifyLine db (fun r => r.stdAPIs)
    (fun n => ∃ api, queryAPI db n = [api] ∧ api.category ≠ "OS")
    (mem_stdAPIs_classifyLine db)]
  simp

/-- The names of `ambiguousAPIs` after the loop: the candidates with two or more
records. -/
theorem mem_ambiguousAPIs (db : List APIInfo) (lines : List String) (n : String) :
    n ∈ (classifyLines db lines).ambiguousAPIs ↔
      IsCandidate lines n ∧ 2 ≤ (queryAPI db n).length := by
  unfold classifyLines
  rw [mem_foldl_classifyLine db (fun r => r.ambiguousAPIs)
    (fun n => 2 ≤ (queryAPI db n).length)
    (mem_ambiguousAPIs_classifyLine db)]
  simp

theorem ascending_foldl_classifyLine (db : List APIInfo) (lines : List String)
    (r : ClassificationResult)
    (h : Ascending r.osAPIs ∧ Ascending r.stdAPIs ∧ Ascending r.ambiguousAPIs) :
    Ascending (lines.foldl (classifyLine db) r).osAPIs ∧
      Ascending (lines.foldl (classifyLine db) r).stdAPIs ∧
      Ascending (lines.foldl (classifyLine db) r).ambiguousAPIs := by
  induction lines generalizing r with
  | nil => exact h
  | cons l ls ih =>
    rw [List.foldl_cons]
    exact ih _ (ascending_classifyLine db r l h)

/-- The three sets are in ascending order after the loop. -/
theorem ascending_classifyLines (db : List APIInfo) (lines : List String) :
    Ascending (classifyLines db lines).osAPIs ∧ Ascending (classifyLines db lines).stdAPIs ∧
      Ascending (classifyLines db lines).ambiguousAPIs := by
  unfold classifyLines
  exact ascending_foldl_classifyLine db lines _
    ⟨List.Pairwise.nil, List.Pairwise.nil, List.Pairwise.nil⟩

/-! ## Properties of the classification result -/

theorem result_sets_disjoint_aux (db : List APIInfo) (lines : List String) (n : String) :
    n ∈ (classifyLines db lines).osAPIs → n ∈ (classifyLines db lines).stdAPIs → False := by
  intro h1 h2
  obtain ⟨-, a, ha, hcat⟩ := (mem_osAPIs db lines n).mp h1
  obtain ⟨-, b, hb, hcat2⟩ := (mem_stdAPIs db lines n).mp h2
  rw [ha] at hb
  simp only [List.cons.injEq, and_true] at hb
  subst hb
  exact hcat2 hcat

/-- C1: for every store and every sequence of lines, the three sets built by the
classification loop of `analyzeFile` are pairwise disjoint. -/
theorem result_sets_pairwise_disjoint (db : List APIInfo) (lines : List String) :
    List.Disjoint (classifyLines db lines).osAPIs (classifyLines db lines).stdAPIs ∧
      List.Disjoint (classifyLines db lines).osAPIs (classifyLines db lines).ambiguousAPIs ∧
      List.Disjoint (classifyLines db lines).stdAPIs (classifyLines db lines).ambiguousAPIs := by
  refine ⟨?_, ?_, ?_⟩
  · intro n h1 h2
    exact result_sets_disjoint_aux db lines n h1 h2
  · intro n h1 h2
    obtain ⟨-, a, ha, -⟩ := (mem_osAPIs db lines n).mp h1
    obtain ⟨-, hlen⟩ := (mem_ambiguousAPIs db lines n).mp h2
    rw [ha] at hlen
    simp at hlen
  · intro n h1 h2
    obtain ⟨-, a, ha, -⟩ := (mem_stdAPIs db lines n).mp h1
    obtain ⟨-, hlen⟩ := (mem_ambiguousAPIs db lines n).mp h2
    rw [ha] at hlen
    simp at hlen

/-- C2: a name that is the candidate of at least one line and has exactly one record `r` in
the store is in `osAPIs` only when `r.category` is "OS", and in `stdAPIs` only when
`r.category` is "Standard". -/
theorem single_record_routed_by_category (db : List APIInfo) (lines : List String)
    (n : String) (r : APIInfo) (hcand : IsCandidate lines n) (hquery : queryAPI db n = [r]) :
    (r.category = "OS" →
        n ∈ (classifyLines db lines).osAPIs ∧ n ∉ (classifyLines db lines).stdAPIs ∧
          n ∉ (classifyLines db lines).ambiguousAPIs) ∧
      (r.category = "Standard" →
        n ∈ (classifyLines db lines).stdAPIs ∧ n ∉ (classifyLines db lines).osAPIs ∧
          n ∉ (classifyLines db lines).ambiguousAPIs) := by
  have hamb : n ∉ (classifyLines db lines).ambiguousAPIs := by
    rw [mem_ambiguousAPIs, hquery]
    simp
  constructor
  · intro hcat
    refine ⟨(mem_osAPIs db lines n).mpr ⟨hcand, r, hquery, hcat⟩, ?_, hamb⟩
    rw [mem_stdAPIs, hquery]
    rintro ⟨-, b, hb, hcat2⟩
    simp only [List.cons.injEq, and_true] at hb
    subst hb
    exact hcat2 hcat
  · intro hcat
    have hne : r.category ≠ "OS" := by
      rw [hcat]
      decide
    refine ⟨(mem_stdAPIs db lines n).mpr ⟨hcand, r, hquery, hne⟩, ?_, hamb⟩
    rw [mem_osAPIs, hquery]
    rintro ⟨-, b, hb, hcat2⟩
    simp only [List.cons.injEq, and_true] at hb
    subst hb
    exact hne hcat2

/-- Witness for C2: "open" in the worked example has the single record of category "OS" and
ends in `osAPIs` alone. -/
theorem single_record_routed_by_category_witness :
    IsCandidate exampleLines "open" ∧
      queryAPI exampleStore "open" =
        [{ name := "open", category := "OS", signature := "int(...)" }] ∧
      "open" ∈ (classifyLines exampleStore exampleLines).osAPIs ∧
      "open" ∉ (classifyLines exampleStore exampleLines).stdAPIs ∧
      "open" ∉ (classifyLines exampleStore exampleLines).ambiguousAPIs :=
  ⟨⟨by decide, "open(f);", by decide, by decide⟩, by decide,
    (single_record_routed_by_category exampleStore exampleLines "open"
      { name := "open", category := "OS", signature := "int(...)" }
      ⟨by decide, "open(f);", by decide, by decide⟩ (by decide)).1 rfl⟩

/-- C3: a name that is the candidate of at least one line and has two or more records in the
store is in `ambiguousAPIs` and in neither `osAPIs` nor `stdAPIs`, whatever the categories
of the records. -/
theorem several_records_ambiguous (db : List APIInfo) (lines : List String) (n : String)
    (hcand : IsCandidate lines n) (hquery : 2 ≤ (queryAPI db n).length) :
    n ∈ (classifyLines db lines).ambiguousAPIs ∧ n ∉ (classifyLines db lines).osAPIs ∧
      n ∉ (classifyLines db lines).stdAPIs := by
  refine ⟨(mem_ambiguousAPIs db lines n).mpr ⟨hcand, hquery⟩, ?_, ?_⟩
  · rw [mem_osAPIs]
    rintro ⟨-, a, ha, -⟩
    rw [ha] at hquery
    simp at hquery
  · rw [mem_stdAPIs]
    rintro ⟨-, a, ha, -⟩
    rw [ha] at hquery
    simp at hquery

/-- Witness for C3: with the records ("close", OS) and ("close", Standard) and the line
"close(f);", the name "close" is ambiguous. -/
theorem several_records_ambiguous_witness :
    IsCandidate ["close(f);"] "close" ∧
      2 ≤ (queryAPI
        [{ name := "close", category := "OS", signature := "int(HANDLE)" },
         { name := "close", category := "Standard", signature := "int(int)" }] "close").length ∧
      "close" ∈ (classifyLines
        [{ name := "close", category := "OS", signature := "int(HANDLE)" },
         { name := "close", category := "Standard", signature := "int(int)" }]
        ["close(f);"]).ambiguousAPIs ∧
      "close" ∉ (classifyLines
        [{ name := "close", category := "OS", signature := "int(HANDLE)" },
         { name := "close", category := "Standard", signature := "int(int)" }]
        ["close(f);"]).osAPIs ∧
      "close" ∉ (classifyLines
        [{ name := "close", category := "OS", signature := "int(HANDLE)" },
         { name := "close", category := "Standard", signature := "int(int)" }]
        ["close(f);"]).stdAPIs :=
  ⟨⟨by decide, "close(f);", by decide, by decide⟩, by decide,
    several_records_ambiguous _ ["close(f);"] "close"
      ⟨by decide, "close(f);", by decide, by decide⟩ (by decide)⟩

/-- C4: a name without record in the store gets the empty list from `queryAPI`, and a name
for which `queryAPI` returns the empty list is in none of the three sets, whatever the
lines are. -/
theorem no_record_discarded (db : List APIInfo) (lines : List String) (n : String) :
    ((∀ r ∈ db, r.name ≠ n) → queryAPI db n = []) ∧
      (queryAPI db n = [] →
        n ∉ (classifyLines db lines).osAPIs ∧ n ∉ (classifyLines db lines).stdAPIs ∧
          n ∉ (classifyLines db lines).ambiguousAPIs) := by
  constructor
  · intro h
    unfold queryAPI
    rw [List.filter_eq_nil_iff]
    intro r hr
    simpa using h r hr
  · intro hq
    refine ⟨?_, ?_, ?_⟩
    · rw [mem_osAPIs, hq]
      rintro ⟨-, a, ha, -⟩
      cases ha
    · rw [mem_stdAPIs, hq]
      rintro ⟨-, a, ha, -⟩
      cases ha
    · rw [mem_ambiguousAPIs, hq]
      rintro ⟨-, hlen⟩
      simp at hlen

/-- Witness for C4: "foo" has no record in the worked example and is reported nowhere,
although the line "foo(x);" yields it. -/
theorem no_record_discarded_witness :
    (∀ r ∈ exampleStore, r.name ≠ "foo") ∧ IsCandidate exampleLines "foo" ∧
      queryAPI exampleStore "foo" = [] ∧
      "foo" ∉ (classifyLines exampleStore exampleLines).osAPIs ∧
      "foo" ∉ (classifyLines exampleStore exampleLines).stdAPIs ∧
      "foo" ∉ (classifyLines exampleStore exampleLines).ambiguousAPIs :=
  ⟨by decide, ⟨by decide, "foo(x);", by decide, by decide⟩,
    (no_record_discarded exampleStore exampleLines "foo").1 (by decide),
    (no_record_discarded exampleStore exampleLines "foo").2 (by decide)⟩

/-! ## Extraction -/

theorem extractFunctionSignature_eq (line : String) :
    (extractFunctionSignature line).data = (regexSearch line.data).getD [] := by
  unfold extractFunctionSignature
  cases regexSearch line.data <;> rfl

theorem regexSearch_of_extract_ne {line : String} (h : extractFunctionSignature line ≠ "") :
    regexSearch line.data = some (extractFunctionSignature line).data := by
  unfold extractFunctionSignature at h ⊢
  cases hs : regexSearch line.data with
  | none => rw [hs] at h; exact absurd rfl h
  | some m => rfl

/-- C5: (i) a line that starts with a non-empty run `n` of word characters, an opening
parenthesis, an argument text without closing parenthesis and a closing parenthesis yields
the candidate `n`, whatever follows; (ii) a line without opening parenthesis, or without
closing parenthesis after its first opening parenthesis, yields the empty string. -/
theorem extraction_boundary :
    (∀ n a s : String, n ≠ "" → (∀ c ∈ n.data, isWordChar c = true) → ')' ∉ a.data →
        extractFunctionSignature (n ++ "(" ++ a ++ ")" ++ s) = n) ∧
      (∀ line : String,
        ('(' ∉ line.data ∨ ')' ∉ line.data.dropWhile (fun c => c != '(')) →
          extractFunctionSignature line = "") := by
  constructor
  · intro n a s hne hword _
    have hn : n.data ≠ [] := fun h => hne (String.ext h)
    have hdata : (n ++ "(" ++ a ++ ")" ++ s).data =
        n.data ++ ([] ++ '(' :: (a.data ++ ')' :: s.data)) := by
      simp [String.data_append]
    have hsearch := regexSearch_of_leading_name n.data ([] ++ '(' :: (a.data ++ ')' :: s.data)) hn
      hword (callFollows_of_split [] a.data s.data (by simp))
    apply String.ext
    rw [extractFunctionSignature_eq, hdata, hsearch]
    rfl
  · intro line h
    apply String.ext
    rw [extractFunctionSignature_eq, regexSearch_none_of_no_paren h]
    rfl

/-- Witness for C5: "somefunc(a, b)" yields "somefunc", "f(g())" yields "f", and
"int x = 5;" yields the empty string. -/
theorem extraction_boundary_witness :
    extractFunctionSignature "somefunc(a, b)" = "somefunc" ∧
      extractFunctionSignature "f(g())" = "f" ∧
      '(' ∉ "int x = 5;".data ∧ extractFunctionSignature "int x = 5;" = "" :=
  ⟨extraction_boundary.1 "somefunc" "a, b" "" (by decide) (by decide) (by decide),
    extraction_boundary.1 "f" "g(" ")" (by decide) (by decide) (by decide),
    by decide, extraction_boundary.2 "int x = 5;" (Or.inl (by decide))⟩

/-- C9 as stated fails: line 19 of `src/test.cpp`, an `if` statement, yields the candidate
"if", and the text "if(" occurs nowhere in that line: a space separates the name from the
parenthesis. -/
theorem candidate_not_adjacent_to_parenthesis :
    extractFunctionSignature test19Line = "if" ∧
      ¬ (("if" ++ "(").data <:+: test19Line.data) := by
  constructor
  · decide
  · decide

/-- C9, amended: whenever `extractFunctionSignature` returns a candidate, the line consists
of a text that does not end in a word character, the candidate (word characters only),
zero or more white-space characters, an opening parenthesis, a text without closing
parenthesis, and a closing parenthesis, followed by the rest of the line. -/
theorem candidate_followed_by_space_parenthesis (line : String)
    (h : extractFunctionSignature line ≠ "") :
    ∃ pre ws args post : List Char,
      line.data = pre ++ ((extractFunctionSignature line).data ++
        (ws ++ '(' :: (args ++ ')' :: post))) ∧
      (∀ c, pre.getLast? = some c → isWordChar c = false) ∧
      (∀ c ∈ (extractFunctionSignature line).data, isWordChar c = true) ∧
      (∀ c ∈ ws, isSpaceChar c = true) ∧ ')' ∉ args := by
  obtain ⟨pre, rest, hline, -, hword, hcall, hpre⟩ :=
    regexSearch_some (regexSearch_of_extract_ne h)
  obtain ⟨ws, args, post, hrest, hws, hargs⟩ := callFollows_split hcall
  exact ⟨pre, ws, args, post, by rw [hline, hrest], hpre, hword, hws, hargs⟩

/-- Witness for C9, amended: line 19 of `src/test.cpp`, an `if` statement,. -/
theorem candidate_followed_by_space_parenthesis_witness :
    extractFunctionSignature test19Line ≠ "" ∧
      ∃ pre ws args post : List Char,
        test19Line.data =
          pre ++ ((extractFunctionSignature test19Line).data ++
            (ws ++ '(' :: (args ++ ')' :: post))) ∧
        (∀ c, pre.getLast? = some c → isWordChar c = false) ∧
        (∀ c ∈ (extractFunctionSignature test19Line).data,
          isWordChar c = true) ∧
        (∀ c ∈ ws, isSpaceChar c = true) ∧ ')' ∉ args :=
  ⟨by decide, candidate_followed_by_space_parenthesis test19Line (by decide)⟩

/-! ## Order and multiplicity of the lines -/

theorem isCandidate_congr {lines1 lines2 : List String}
    (h : ∀ l, l ∈ lines1 ↔ l ∈ lines2) (n : String) :
    IsCandidate lines1 n ↔ IsCandidate lines2 n := by
  unfold IsCandidate
  constructor
  · rintro ⟨hne, l, hl, he⟩
    exact ⟨hne, l, (h l).mp hl, he⟩
  · rintro ⟨hne, l, hl, he⟩
    exact ⟨hne, l, (h l).mpr hl, he⟩

/-- C6: two sequences of lines with the same set of distinct lines (in any order, with any
repetition) give identical `osAPIs`, `stdAPIs` and `ambiguousAPIs`, and no set holds a name
twice. -/
theorem result_independent_of_line_order (db : List APIInfo) (lines1 lines2 : List String)
    (h : ∀ l, l ∈ lines1 ↔ l ∈ lines2) :
    classifyLines db lines1 = classifyLines db lines2 ∧
      (classifyLines db lines1).osAPIs.Nodup ∧ (classifyLines db lines1).stdAPIs.Nodup ∧
      (classifyLines db lines1).ambiguousAPIs.Nodup := by
  obtain ⟨a1, a2, a3⟩ := ascending_classifyLines db lines1
  obtain ⟨b1, b2, b3⟩ := ascending_classifyLines db lines2
  refine ⟨?_, ascending_nodup a1, ascending_nodup a2, ascending_nodup a3⟩
  have e1 : (classifyLines db lines1).osAPIs = (classifyLines db lines2).osAPIs :=
    ascending_ext a1 b1 (fun n => by rw [mem_osAPIs, mem_osAPIs, isCandidate_congr h])
  have e2 : (classifyLines db lines1).stdAPIs = (classifyLines db lines2).stdAPIs :=
    ascending_ext a2 b2 (fun n => by rw [mem_stdAPIs, mem_stdAPIs, isCandidate_congr h])
  have e3 : (classifyLines db lines1).ambiguousAPIs =
      (classifyLines db lines2).ambiguousAPIs :=
    ascending_ext a3 b3
      (fun n => by rw [mem_ambiguousAPIs, mem_ambiguousAPIs, isCandidate_congr h])
  cases hr1 : classifyLines db lines1 with
  | mk o1 s1 m1 =>
    cases hr2 : classifyLines db lines2 with
    | mk o2 s2 m2 =>
      rw [hr1, hr2] at e1 e2 e3
      simp only at e1 e2 e3
      rw [e1, e2, e3]

/-- Witness for C6: the worked example read backwards, with "open(f);" repeated. -/
theorem result_independent_of_line_order_witness :
    (∀ l, l ∈ ["foo(x);", "close(f);", "open(f);", "fopen(f);", "open(f);"] ↔
        l ∈ exampleLines) ∧
      classifyLines exampleStore
          ["foo(x);", "close(f);", "open(f);", "fopen(f);", "open(f);"] =
        classifyLines exampleStore exampleLines ∧
      (classifyLines exampleStore
        ["foo(x);", "close(f);", "open(f);", "fopen(f);", "open(f);"]).osAPIs.Nodup ∧
      (classifyLines exampleStore
        ["foo(x);", "close(f);", "open(f);", "fopen(f);", "open(f);"]).stdAPIs.Nodup ∧
      (classifyLines exampleStore
        ["foo(x);", "close(f);", "open(f);", "fopen(f);", "open(f);"]).ambiguousAPIs.Nodup :=
  ⟨by simp [exampleLines]; tauto,
    result_independent_of_line_order exampleStore
      ["foo(x);", "close(f);", "open(f);", "fopen(f);", "open(f);"] exampleLines
      (by simp [exampleLines]; tauto)⟩

/-! ## Report -/

theorem tableRowsStd_eq (std : List String) :
    tableRowsStd std =
      (List.range std.length).map
        (fun i => ([] : List String).getD i "" ++ "\t" ++ std.getD i "" ++ "\n") := by
  induction std with
  | nil => rfl
  | cons s ss ih =>
    rw [tableRowsStd, ih, List.length_cons, List.range_succ_eq_map, List.map_cons,
      List.map_map]
    rfl

theorem tableRows_eq (os std : List String) :
    tableRows os std =
      (List.range (max os.length std.length)).map
        (fun i => os.getD i "" ++ "\t" ++ std.getD i "" ++ "\n") := by
  induction os generalizing std with
  | nil =>
    rw [tableRows, tableRowsStd_eq]
    simp
  | cons o os ih =>
    cases std with
    | nil =>
      rw [tableRows, ih]
      simp only [List.length_cons, List.length_nil, Nat.max_zero]
      rw [List.range_succ_eq_map, List.map_cons, List.map_map]
      rfl
    | cons s ss =>
      rw [tableRows, ih]
      simp only [List.length_cons, Nat.succ_max_succ]
      rw [List.range_succ_eq_map, List.map_cons, List.map_map]
      rfl

/-- C8: the report of `analyzeFile` is the header line, then `max |osAPIs| |stdAPIs|` rows,
row `i` being the `i`-th name of `osAPIs` (nothing past its end), a tab, the `i`-th name of
`stdAPIs` (nothing past its end) and a newline, then the ambiguous names one per line under
their heading; each of the three sets is listed in strictly ascending order, so each name
once. -/
theorem report_layout (db : List APIInfo) (lines : List String) :
    Ascending (classifyLines db lines).osAPIs ∧ Ascending (classifyLines db lines).stdAPIs ∧
      Ascending (classifyLines db lines).ambiguousAPIs ∧
      (classifyLines db lines).ambiguousAPIs.Nodup ∧
      (tableRows (classifyLines db lines).osAPIs (classifyLines db lines).stdAPIs).length =
        max (classifyLines db lines).osAPIs.length (classifyLines db lines).stdAPIs.length ∧
      analyzeFile db lines =
        "OS APIs\tStandard Libraries\n" ++
          String.join
            ((List.range (max (classifyLines db lines).osAPIs.length
                (classifyLines db lines).stdAPIs.length)).map
              (fun i => (classifyLines db lines).osAPIs.getD i "" ++ "\t" ++
                (classifyLines db lines).stdAPIs.getD i "" ++ "\n")) ++
          (if (classifyLines db lines).ambiguousAPIs = [] then ""
           else "\nAmbiguous APIs requiring manual inspection:\n" ++
             String.join ((classifyLines db lines).ambiguousAPIs.map
               (fun api => api ++ "\n"))) := by
  obtain ⟨a1, a2, a3⟩ := ascending_classifyLines db lines
  refine ⟨a1, a2, a3, ascending_nodup a3, ?_, ?_⟩
  · rw [tableRows_eq]
    simp
  · unfold analyzeFile renderReport ambiguousSection
    rw [tableRows_eq]
    cases (classifyLines db lines).ambiguousAPIs <;> simp

/-! ## Start-up of the store -/

theorem isTableEmpty_iff (db : List APIInfo) :
    isTableEmpty db = true ↔ db.length % 2 ^ 32 = 0 := by
  unfold isTableEmpty columnInt
  have hlt : db.length % 2 ^ 32 < 2 ^ 32 := Nat.mod_lt _ (by norm_num)
  split
  · simp only [beq_iff_eq]
    omega
  · simp only [beq_iff_eq]
    omega

theorem populateKnownAPIs_eq (db : List APIInfo) :
    populateKnownAPIs db = db ++ populateKnownAPIs [] := by
  simp [populateKnownAPIs, addAPISignature]

theorem length_populateKnownAPIs_nil : (populateKnownAPIs []).length = 20 := rfl

theorem initializeDatabase_nil : initializeDatabase [] = populateKnownAPIs [] := by
  have h : isTableEmpty [] = true := (isTableEmpty_iff []).mpr rfl
  simp [initializeDatabase, h]

/-- A store whose number of records is not a multiple of `2 ^ 32` is left as it is. -/
theorem initializeDatabase_of_count_ne (db : List APIInfo) (h : db.length % 2 ^ 32 ≠ 0) :
    initializeDatabase db = db := by
  have h2 : ¬ isTableEmpty db = true := fun e => h ((isTableEmpty_iff db).mp e)
  simp [initializeDatabase, h2]

/-- After start-up the count read by `isTableEmpty` is not zero. -/
theorem isTableEmpty_initializeDatabase (db : List APIInfo) :
    isTableEmpty (initializeDatabase db) = false := by
  cases h : isTableEmpty db with
  | false => simp [initializeDatabase, h]
  | true =>
    have hmod := (isTableEmpty_iff db).mp h
    have hne : ¬ isTableEmpty (populateKnownAPIs db) = true := by
      rw [isTableEmpty_iff, populateKnownAPIs_eq, List.length_append,
        length_populateKnownAPIs_nil]
      omega
    simpa [initializeDatabase, h] using hne

/-- A second start-up changes nothing: it inserts no record. -/
theorem initializeDatabase_idempotent (db : List APIInfo) :
    initializeDatabase (initializeDatabase db) = initializeDatabase db := by
  have h := isTableEmpty_initializeDatabase db
  generalize initializeDatabase db = db2 at h ⊢
  simp [initializeDatabase, h]

/-- An empty store is seeded with the twenty built-in records, each once, and a store of
fewer than `2 ^ 32` records that is not empty is left unchanged. -/
theorem initializeDatabase_small (db : List APIInfo) (hlen : db.length < 2 ^ 32) :
    (db = [] → initializeDatabase db = populateKnownAPIs [] ∧
        (initializeDatabase db).length = 20 ∧ (initializeDatabase db).Nodup) ∧
      (db ≠ [] → initializeDatabase db = db) := by
  constructor
  · intro h
    subst h
    rw [initializeDatabase_nil]
    exact ⟨rfl, rfl, by decide⟩
  · intro h
    apply initializeDatabase_of_count_ne
    have : db.length ≠ 0 := fun e => h (List.length_eq_zero.mp e)
    rw [Nat.mod_eq_of_lt hlen]
    exact this

/-- C7, where the code departs from it: on a store of `2 ^ 32` records the 32-bit count
read by `isTableEmpty` is zero, so `initializeDatabase` takes the store for empty and
appends the twenty built-in records to it. -/
theorem seeding_repeated_when_count_wraps :
    List.replicate (2 ^ 32)
        ({ name := "open", category := "OS", signature := "int (const char*, int, ...)" } :
          APIInfo) ≠ [] ∧
      isTableEmpty (List.replicate (2 ^ 32)
        ({ name := "open", category := "OS", signature := "int (const char*, int, ...)" } :
          APIInfo)) = true ∧
      initializeDatabase (List.replicate (2 ^ 32)
          ({ name := "open", category := "OS", signature := "int (const char*, int, ...)" } :
            APIInfo)) =
        List.replicate (2 ^ 32)
          ({ name := "open", category := "OS", signature := "int (const char*, int, ...)" } :
            APIInfo) ++ populateKnownAPIs [] ∧
      (initializeDatabase (List.replicate (2 ^ 32)
        ({ name := "open", category := "OS", signature := "int (const char*, int, ...)" } :
          APIInfo))).length = 2 ^ 32 + 20 := by
  have key : ∀ (k : Nat) (r : APIInfo), k = 2 ^ 32 →
      List.replicate k r ≠ [] ∧ isTableEmpty (List.replicate k r) = true ∧
        initializeDatabase (List.replicate k r) =
          List.replicate k r ++ populateKnownAPIs [] ∧
        (initializeDatabase (List.replicate k r)).length = k + 20 := by
    intro k r hk
    have hempty : isTableEmpty (List.replicate k r) = true := by
      rw [isTableEmpty_iff, List.length_replicate, hk]
      exact Nat.mod_self _
    have hinit : initializeDatabase (List.replicate k r) =
        List.replicate k r ++ populateKnownAPIs [] := by
      unfold initializeDatabase
      rw [if_pos hempty, populateKnownAPIs_eq]
    refine ⟨?_, hempty, hinit, ?_⟩
    · intro h
      have := congrArg List.length h
      rw [List.length_replicate, hk] at this
      exact absurd this (by norm_num)
    · rw [hinit, List.length_append, List.length_replicate, length_populateKnownAPIs_nil]
  exact key (2 ^ 32) _ rfl

/-! ## The built-in store -/

theorem length_queryAPI_le_one (db : List APIInfo) (n : String)
    (h : (db.map APIInfo.name).Nodup) : (queryAPI db n).length ≤ 1 := by
  induction db with
  | nil => simp [queryAPI]
  | cons r rs ih =>
    rw [List.map_cons, List.nodup_cons] at h
    have ih2 := ih h.2
    unfold queryAPI at ih2 ⊢
    by_cases hr : r.name = n
    · have hnone : List.filter (fun r => r.name == n) rs = [] := by
        rw [List.filter_eq_nil_iff]
        intro s hs hsn
        apply h.1
        rw [hr]
        have : s.name = n := by simpa using hsn
        rw [← this]
        exact List.mem_map_of_mem _ hs
      simp [List.filter_cons, hr, hnone]
    · simpa [List.filter_cons, hr] using ih2

theorem nodup_names_initializeDatabase_nil :
    ((initializeDatabase []).map APIInfo.name).Nodup := by
  rw [initializeDatabase_nil]
  decide

/-- C10: in a store seeded from empty by `populateKnownAPIs` every name has at most one
record; hence for every sequence of lines `ambiguousAPIs` stays empty, and every candidate
is either in no set (it has no record) or in exactly one of `osAPIs` and `stdAPIs`. -/
theorem seeded_store_never_ambiguous (lines : List String) :
    (∀ n, (queryAPI (initializeDatabase []) n).length ≤ 1) ∧
      (classifyLines (initializeDatabase []) lines).ambiguousAPIs = [] ∧
      (∀ n, IsCandidate lines n →
        (queryAPI (initializeDatabase []) n = [] ∧
            n ∉ (classifyLines (initializeDatabase []) lines).osAPIs ∧
            n ∉ (classifyLines (initializeDatabase []) lines).stdAPIs) ∨
          (n ∈ (classifyLines (initializeDatabase []) lines).osAPIs ∧
            n ∉ (classifyLines (initializeDatabase []) lines).stdAPIs) ∨
          (n ∈ (classifyLines (initializeDatabase []) lines).stdAPIs ∧
            n ∉ (classifyLines (initializeDatabase []) lines).osAPIs)) := by
  have hone : ∀ n, (queryAPI (initializeDatabase []) n).length ≤ 1 :=
    fun n => length_queryAPI_le_one _ n nodup_names_initializeDatabase_nil
  refine ⟨hone, ?_, ?_⟩
  · rw [List.eq_nil_iff_forall_not_mem]
    intro n hn
    have h2 := ((mem_ambiguousAPIs _ lines n).mp hn).2
    have h1 := hone n
    omega
  · intro n hcand
    have hdis := (result_sets_disjoint_aux (initializeDatabase []) lines n)
    cases hq : queryAPI (initializeDatabase []) n with
    | nil =>
      left
      refine ⟨rfl, ?_, ?_⟩
      · rw [mem_osAPIs, hq]
        rintro ⟨-, a, ha, -⟩
        cases ha
      · rw [mem_stdAPIs, hq]
        rintro ⟨-, a, ha, -⟩
        cases ha
    | cons a as =>
      have has : as = [] := by
        have h1 := hone n
        rw [hq, List.length_cons] at h1
        exact List.length_eq_zero.mp (by omega)
      subst has
      right
      by_cases hcat : a.category = "OS"
      · left
        have hos := (mem_osAPIs (initializeDatabase []) lines n).mpr ⟨hcand, a, hq, hcat⟩
        exact ⟨hos, fun hstd => hdis hos hstd⟩
      · right
        have hstd := (mem_stdAPIs (initializeDatabase []) lines n).mpr ⟨hcand, a, hq, hcat⟩
        exact ⟨hstd, fun hos => hdis hos hstd⟩

/-- Witness for C10: the lines of `src/test2.cpp` on the seeded store. The call of the
user-defined `close` is a candidate and is routed to `osAPIs`, `printf` to `stdAPIs`,
`MessageBox` has no record, and nothing is ambiguous. -/
theorem seeded_store_never_ambiguous_witness :
    IsCandidate test2Lines "close" ∧
      ((queryAPI (initializeDatabase []) "close" = [] ∧
          "close" ∉ (classifyLines (initializeDatabase []) test2Lines).osAPIs ∧
          "close" ∉ (classifyLines (initializeDatabase []) test2Lines).stdAPIs) ∨
        ("close" ∈ (classifyLines (initializeDatabase []) test2Lines).osAPIs ∧
          "close" ∉ (classifyLines (initializeDatabase []) test2Lines).stdAPIs) ∨
        ("close" ∈ (classifyLines (initializeDatabase []) test2Lines).stdAPIs ∧
          "close" ∉ (classifyLines (initializeDatabase []) test2Lines).osAPIs)) ∧
      classifyLines (initializeDatabase []) test2Lines =
        { osAPIs := ["close"], stdAPIs := ["printf"], ambiguousAPIs := [] } :=
  ⟨⟨by decide, "void close() \x7b", by decide, by decide⟩,
    (seeded_store_never_ambiguous test2Lines).2.2 "close"
      ⟨by decide, "void close() \x7b", by decide, by decide⟩,
    by decide⟩

end APIAnalyzer
